import Mathlib

/-!
Verification development for the dynamic memory allocator in src/mm.c.

The embedding is a shallow model of the C code over a word-granular heap:

* The heap is a list of 32-bit words (`HeapSt.mem`); addresses are byte
  offsets (as `Int`) from the base of the heap region (`mem_heap_lo`).
  Every memory access in the source is a 4-byte `int` access at a
  4-aligned byte address on every modeled path, so a word-granular memory
  with guarded loads and stores is faithful: a load or store at a
  negative, misaligned or past-the-break address yields no value
  (`Err.oob`), instead of the undefined behaviour of the C program.
* Pointer values stored in memory are byte offsets from the heap base;
  the null pointer is 0.  The segregated list `seg_list` occupies bytes
  0..87 (22 four-byte cells, written by mm_init), and `mm_start_brk`,
  the start of the user zone, is the constant byte offset 88.
* `mem_sbrk` grows the word list, bounded by a capacity `maxWords`
  fixed per heap; on failure it returns the sentinel -1 and leaves the
  heap unchanged, as memlib does.  Fresh words are 0 (the C bytes are
  indeterminate; no modeled path reads them before writing them).
* The C call `exit(1)` in mm_realloc is modeled as the distinguished
  outcome `Err.exited 1`.  Loops are run on explicit fuel that is ample
  for every modeled heap (`Err.noFuel` marks exhaustion); the recursion
  of mm_malloc through the small-block primer has depth at most 3, and
  is run on fuel `MFUEL = 8`.
* C `int` values are modeled as `Int`; the bit operations of the source
  only mask or set the lowest bit, which is exact arithmetic on `Int`
  (`v & -2 = v - v % 2`, `v | 1 = v - v % 2 + 1`, `(v >> 1) << 1 =
  v - v % 2` with arithmetic shift).  `size_t` request sizes are `Nat`.
-/

/-- Outcomes that terminate a call abnormally: an out-of-model memory
access (guarded indexing failed), a call to exit(status), or fuel
exhaustion of a loop. -/
inductive Err where
  | oob : Err
  | exited : Nat → Err
  | noFuel : Err
deriving DecidableEq, Repr

/-- The allocator state: the heap words (index zone followed by the user
zone), the capacity of the heap region in words, and the static counter
m_count of mm.c. -/
structure HeapSt where
  mem : List Int
  maxWords : Nat
  mCount : Int
deriving DecidableEq, Repr

/-- ALIGN(size): round up to a multiple of 8, as (size + 7) & ~7. -/
def align (n : Nat) : Nat := (n + 7) / 8 * 8

/-- GET_SIZE_WITH_POS value part: v & -2 (clear the low bit). -/
def getSizeV (v : Int) : Int := v - v % 2

/-- GET_ALLOC_WITH_POS value part: v & 1. -/
def getAllocV (v : Int) : Int := v % 2

/-- SET_ALLOC_VAL: size | 1 (set the low bit). -/
def setAllocV (v : Int) : Int := v - v % 2 + 1

/-- SET_FREE_VAL: (info >> 1) << 1 with arithmetic shift, i.e. clear the
low bit; identical to GET_SIZE_WITH_POS on values. -/
def setFreeV (v : Int) : Int := v - v % 2

/-- mm_start_brk: byte offset of the start of the user zone, just past
the 22 four-byte segregated-list cells reserved by mm_init. -/
def MMSTART : Int := 88

/-- LISTLENGTH of mm.c. -/
def LISTLENGTH : Nat := 22

/-- Fuel bound for the recursion of mm_malloc through the small-block
primer (actual depth is at most 3). -/
def MFUEL : Nat := 8

/-- One past the last valid byte of the heap. -/
def brkB (st : HeapSt) : Int := 4 * (st.mem.length : Int)

/-- mem_heap_hi(): the address of the last valid byte of the heap. -/
def heapHi (st : HeapSt) : Int := 4 * (st.mem.length : Int) - 1

/-- Guarded 4-byte load at byte address a (an `int` read of the C code).
Yields no value unless a is 4-aligned and inside the heap. -/
def loadW (st : HeapSt) (a : Int) : Except Err Int :=
  if 0 ≤ a ∧ a % 4 = 0 ∧ a < brkB st then .ok (st.mem.getD (a.toNat / 4) 0)
  else .error .oob

/-- Guarded 4-byte store at byte address a (an `int` write of the C code). -/
def storeW (st : HeapSt) (a : Int) (v : Int) : Except Err HeapSt :=
  if 0 ≤ a ∧ a % 4 = 0 ∧ a < brkB st then
    .ok { st with mem := st.mem.set (a.toNat / 4) v }
  else .error .oob

/-- mem_sbrk(n): grow the heap by n bytes and return the old break, or
return the sentinel -1 leaving the heap unchanged when the region is
exhausted (or when n is negative, as in memlib).  A request that is not
a multiple of 4 cannot be represented word-granularly and is treated as
a failing request; every modeled call site passes a multiple of 8. -/
def sbrk (st : HeapSt) (n : Int) : HeapSt × Int :=
  if n < 0 ∨ n % 4 ≠ 0 then (st, -1)
  else if 4 * (st.mem.length : Int) + n > 4 * (st.maxWords : Int) then (st, -1)
  else ({ st with mem := st.mem ++ List.replicate (n.toNat / 4) 0 }, 4 * (st.mem.length : Int))

/-- mm_init: reserve 22 pointer cells for the segregated list (all null)
at the bottom of the region.  The C function returns -1 when mem_sbrk
fails; this is modeled as an error. -/
def mm_init (maxWords : Nat) : Except Err HeapSt :=
  let st0 : HeapSt := ⟨[], maxWords, 0⟩
  let r := sbrk st0 (4 * 22)
  if r.2 = -1 then .error .oob
  else .ok r.1

/-- Structural worker for the bit-count loop of mm.c; the fuel only needs
to be at least the number of binary digits of n. -/
def cntBitGo : Nat → Nat → Nat
  | 0, _ => 0
  | f + 1, n => if n = 0 then 0 else cntBitGo f (n / 2) + 1

/-- The bit-count loop of mm.c (while(v != 0) cnt++, v /= 2): the number
of binary digits of v.  Call sites pass nonnegative sizes; n itself is
ample fuel, since a number has no more binary digits than its value. -/
def cntBit (n : Nat) : Nat := cntBitGo n n

/-- remove_entry(next_p): unlink the free-list node whose next-slot is at
byte address next_p, updating the successor's prev slot and writing the
next value through the prev slot (into a bucket head cell when the
target lies at or below mm_start_brk, into a block otherwise). -/
def remove_entry (st : HeapSt) (next_p : Int) : Except Err HeapSt := do
  let next ← loadW st next_p
  let st ←
    if next ≠ 0 then do
      let pv ← loadW st (next_p - 4)
      storeW st (next - 4) pv
    else pure st
  let prevv ← loadW st (next_p - 4)
  let nv ← loadW st next_p
  if prevv + 4 > MMSTART then
    storeW st (prevv + 4) nv
  else
    storeW st prevv nv

/-- add_to_list_usr(ptr, size): push the free block with user pointer ptr
and payload size onto the head of the bucket selected by its size; a
block of payload size 0 is not inserted anywhere. -/
def add_to_list_usr (st : HeapSt) (ptr : Int) (size : Int) : Except Err HeapSt :=
  if size = 0 then .ok st
  else do
    let index : Int := (cntBit size.toNat : Int) - 4
    let h ← loadW st (4 * index)
    let st ← storeW st (ptr + 4) h
    let st ← storeW st ptr (4 * index)
    let v ← loadW st (ptr + 4)
    let st ← if v ≠ 0 then storeW st (v - 4) ptr else pure st
    storeW st (4 * index) (ptr + 4)

/-- set_info_free(p, size): write free-tagged header (at p) and footer
(at p + size + 8, i.e. SECONDINFOINTVAL(PREVINT(p), size)). -/
def set_info_free (st : HeapSt) (p : Int) (size : Int) : Except Err HeapSt := do
  let st ← storeW st p (setFreeV size)
  storeW st (p + size + 8) (setFreeV size)

/-- The backward sweep of coalesce: while the cursor (at the footer of
the preceding block) stays at or above mm_start_brk and the block there
is free, accumulate its size + 16, step back, and unlink it (blocks of
size 0 are not unlinked).  Returns the final cursor and total. -/
def coalBack : Nat → HeapSt → Int → Int → Except Err (HeapSt × Int × Int)
  | 0, _, _, _ => .error .noFuel
  | f + 1, st, sp, tot =>
    if sp ≥ MMSTART then do
      let v ← loadW st sp
      if getAllocV v ≠ 0 then .ok (st, sp, tot)
      else do
        let t := getSizeV v
        let tot := tot + t + 16
        let sp := sp - t - 16
        let st ← if t ≠ 0 then remove_entry st (sp + 16) else pure st
        coalBack f st sp tot
    else .ok (st, sp, tot)

/-- The forward sweep of coalesce: while the cursor (at the header of the
following block) stays strictly below mem_max_addr and the block there
is free, accumulate its size + 16, unlink it (size 0 excepted), and step
forward. -/
def coalFwd : Nat → HeapSt → Int → Int → Int → Except Err (HeapSt × Int × Int)
  | 0, _, _, _, _ => .error .noFuel
  | f + 1, st, lp, tot, maxA =>
    if lp < maxA then do
      let v ← loadW st lp
      if getAllocV v ≠ 0 then .ok (st, lp, tot)
      else do
        let t := getSizeV v
        let tot := tot + t + 16
        let st ← if t ≠ 0 then remove_entry st (lp + 8) else pure st
        coalFwd f st (lp + t + 16) tot maxA
    else .ok (st, lp, tot)

/-- coalesce(ptr): sweep backward then forward from the just-freed block
with user pointer ptr, write free tags over the merged extent and insert
it into the segregated list. -/
def coalesce (st : HeapSt) (ptr : Int) : Except Err HeapSt := do
  let hv ← loadW st (ptr - 4)
  let totalSize := getSizeV hv
  let last_ptr := (ptr - 4) + totalSize + 16
  let r ← coalBack (st.mem.length + 1) st (ptr - 12) totalSize
  let st := r.1
  let start_ptr := r.2.1
  let maxA := heapHi st
  let r2 ← coalFwd (st.mem.length + 1) st last_ptr r.2.2 maxA
  let st := r2.1
  let totalSize := r2.2.2
  let st ← set_info_free st (start_ptr + 8) totalSize
  add_to_list_usr st (start_ptr + 12) totalSize

/-- mm_free(ptr): clear the alloc bit in header and footer and coalesce. -/
def mm_free (st : HeapSt) (ptr : Int) : Except Err HeapSt := do
  let hv ← loadW st (ptr - 4)
  let size := getSizeV hv
  let hv2 ← loadW st (ptr - 4)
  let st ← storeW st (ptr - 4) (setFreeV hv2)
  let hv3 ← loadW st (ptr - 4)
  let st ← storeW st ((ptr - 8) + size + 12) (setFreeV hv3)
  coalesce st ptr

/-- The inner search of mm_malloc over one bucket chain: walk the list of
next-slot addresses; on an exact fit remove the entry; on a fit with
at least 16 spare bytes remove it and split off the remainder as a new
free block.  Returns (state, block pointer, found). -/
def mallocChain : Nat → HeapSt → Int → Int → Except Err (HeapSt × Int × Bool)
  | 0, _, _, _ => .error .noFuel
  | f + 1, st, cs, next_p =>
    if next_p = 0 then .ok (st, 0, false)
    else do
      let hv ← loadW st (next_p - 8)
      let diff := getSizeV hv - cs
      if diff = 0 then do
        let p := next_p - 12
        let st ← remove_entry st next_p
        .ok (st, p, true)
      else if diff ≥ 16 then do
        let p := next_p - 12
        let st ← remove_entry st next_p
        let sizediv := diff - 16
        let temp_ptr := next_p + cs + 12
        let st ← set_info_free st (temp_ptr - 4) sizediv
        let st ← add_to_list_usr st temp_ptr sizediv
        .ok (st, p, true)
      else do
        let np ← loadW st next_p
        mallocChain f st cs np

/-- The outer search of mm_malloc: for(i = start; i < 22; i++) over the
bucket heads; the remaining iteration count is the fuel. -/
def mallocOuter : Nat → HeapSt → Int → Int → Except Err (HeapSt × Int × Bool)
  | 0, st, _, _ => .ok (st, 0, false)
  | k + 1, st, cs, i => do
    let head ← loadW st (4 * i)
    let r ← mallocChain (st.mem.length + 1) st cs head
    if r.2.2 then .ok r
    else mallocOuter k r.1 cs (i + 1)

/-- mm_malloc(size) with explicit fuel for the recursion through the
small-block primer: prime the heap for small requests, search the
segregated list from the bucket of the rounded size, extend the heap
when nothing fits, and write allocated tags.  Returns the user pointer,
or 0 (NULL) when mem_sbrk fails. -/
def mm_malloc : Nat → HeapSt → Nat → Except Err (HeapSt × Int)
  | 0, _, _ => .error .noFuel
  | fuel + 1, st, size => do
    let newsize : Int := (align (size + 16) : Int)
    let contentsize : Int := (align size : Int)
    let st ←
      if newsize ≤ 32 then
        if st.mCount = 0 ∨ st.mCount = 4 then do
          let r ← mm_malloc fuel st (align size * 4 + 16 * 3)
          let st2 ← mm_free r.1 r.2
          pure { st2 with mCount := 1 }
        else pure { st with mCount := st.mCount + 1 }
      else if newsize ≤ 80 then
        if st.mCount = 0 ∨ st.mCount = 6 then do
          let r ← mm_malloc fuel st (align size * 6 + 16 * 5)
          let st2 ← mm_free r.1 r.2
          pure { st2 with mCount := 1 }
        else pure { st with mCount := st.mCount + 1 }
      else pure st
    let i0 : Int := (cntBit (align size) : Int)
    let r ← mallocOuter (22 - (i0 - 4)).toNat st contentsize (i0 - 4)
    let st := r.1
    let pf :=
      if r.2.2 then (st, r.2.1)
      else sbrk st newsize
    let st := pf.1
    let p := pf.2
    if p = -1 then .ok (st, 0)
    else do
      let st ← storeW st (p + 4) (setAllocV contentsize)
      let st ← storeW st (p + contentsize + 12) (setAllocV contentsize)
      .ok (st, p + 8)

/-- check_last_usr(ptr): whether the block's following header position
reaches mem_heap_hi, i.e. the block is the last block of the heap. -/
def check_last_usr (st : HeapSt) (ptr : Int) : Except Err Bool := do
  let hv ← loadW st (ptr - 4)
  .ok (((ptr - 4) + getSizeV hv + 16) ≥ heapHi st)

/-- The backward accumulation walk of mm_realloc: like the backward sweep
of coalesce but without unlinking, stopping as soon as the accumulated
total reaches newsize exactly or newsize + 16.  Returns (cursor, total,
possible). -/
def reBack : Nat → HeapSt → Int → Int → Int → Except Err (Int × Int × Bool)
  | 0, _, _, _, _ => .error .noFuel
  | f + 1, st, sp, tot, ns =>
    if sp ≥ MMSTART then do
      let v ← loadW st sp
      if getAllocV v ≠ 0 then .ok (sp, tot, false)
      else
        let t := getSizeV v
        let tot := tot + t + 16
        let sp := sp - t - 16
        if tot ≥ ns + 16 ∨ tot = ns then .ok (sp, tot, true)
        else reBack f st sp tot ns
    else .ok (sp, tot, false)

/-- The forward accumulation walk of mm_realloc, with the same stop
condition; the cursor is advanced before the stop test, as in the
source. -/
def reFwd : Nat → HeapSt → Int → Int → Int → Int → Except Err (Int × Int × Bool)
  | 0, _, _, _, _, _ => .error .noFuel
  | f + 1, st, lp, tot, ns, maxA =>
    if lp < maxA then do
      let v ← loadW st lp
      if getAllocV v ≠ 0 then .ok (lp, tot, false)
      else
        let t := getSizeV v
        let tot := tot + t + 16
        let lp := lp + t + 16
        if tot ≥ ns + 16 ∨ tot = ns then .ok (lp, tot, true)
        else reFwd f st lp tot ns maxA
    else .ok (lp, tot, false)

/-- The backward removal loop of mm_realloc (while(itr_ptr > start_ptr)):
step back by the previously read size, read the size at the new cursor,
and unlink the entry whose next-slot is 16 bytes above the cursor. -/
def remBackLoop : Nat → HeapSt → Int → Int → Int → Except Err HeapSt
  | 0, _, _, _, _ => .error .noFuel
  | f + 1, st, itr, temp, sp =>
    if itr > sp then do
      let itr := itr - temp - 16
      let v ← loadW st itr
      let temp := getSizeV v
      let st ← remove_entry st (itr + 16)
      remBackLoop f st itr temp sp
    else .ok st

/-- The forward removal loop of mm_realloc (while(itr_ptr < last_ptr)):
unlink the entry at the cursor, then advance with
FORWARDINT(last_ptr, tempSize) -- from last_ptr, as the source does. -/
def remFwdLoop : Nat → HeapSt → Int → Int → Except Err HeapSt
  | 0, _, _, _ => .error .noFuel
  | f + 1, st, itr, lp =>
    if itr < lp then do
      let st ← remove_entry st (itr + 8)
      let v ← loadW st itr
      let temp := getSizeV v
      remFwdLoop f st (lp + temp + 16) lp
    else .ok st

/-- The byte-copy loop of mm_realloc and its trailing memcpy, modeled as
a word copy; every modeled copy length is a multiple of 8 bytes (a copy
length that is negative or not a multiple of 4 leaves the word model). -/
def copyWords (st : HeapSt) (dst src n : Int) : Except Err HeapSt :=
  if n < 0 ∨ n % 4 ≠ 0 then .error .oob
  else go (n.toNat / 4) st 0
where
  go : Nat → HeapSt → Nat → Except Err HeapSt
    | 0, st, _ => .ok st
    | k + 1, st, i => do
      let v ← loadW st (src + 4 * (i : Int))
      let st ← storeW st (dst + 4 * (i : Int)) v
      go k st (i + 1)

/-- mm_realloc(ptr, size), following the source line by line: the header
reads that precede the null test, the ptr == NULL and size == 0 special
cases, the equal and shrink-with-split cases, the grow-at-tail case
(exit(1) when mem_sbrk fails), the symmetric coalesce attempt with its
removal loops, copy, split and tagging, and the fallback through
mm_malloc, memcpy and mm_free. -/
def mm_realloc (st : HeapSt) (ptr : Int) (size : Nat) : Except Err (HeapSt × Int) := do
  let oldptr := ptr
  let cv ← loadW st (ptr - 4)
  let copySize0 := getSizeV cv
  let start_ptr0 := ptr - 12
  let tv ← loadW st (ptr - 4)
  let totalSize0 := getSizeV tv
  let last_ptr0 := (ptr - 4) + totalSize0 + 16
  let itr_ptr0 := ptr - 12
  let newsize : Int := (align size : Int)
  let copySize := if newsize < copySize0 then newsize else copySize0
  if ptr = 0 then
    mm_malloc MFUEL st size
  else if size = 0 then do
    let st ← mm_free st ptr
    .ok (st, 0)
  else if totalSize0 = newsize then .ok (st, ptr)
  else if totalSize0 ≥ newsize + 16 then do
    let start_info_ptr := ptr - 4
    let sizediv := totalSize0 - newsize - 16
    let st ← storeW st start_info_ptr (setAllocV newsize)
    let st ← storeW st (start_info_ptr - 4 + newsize + 12) (setAllocV newsize)
    let div_ptr := start_info_ptr + 8 + newsize + 12
    let st ← set_info_free st (div_ptr - 4) sizediv
    let st ← add_to_list_usr st div_ptr sizediv
    .ok (st, ptr)
  else do
    let isLast ← check_last_usr st ptr
    if totalSize0 < newsize ∧ isLast then do
      let d := newsize - totalSize0
      let r := sbrk st d
      if r.2 = -1 then .error (.exited 1)
      else do
        let st := r.1
        let st ← storeW st (ptr - 4) (setAllocV newsize)
        let st ← storeW st (ptr - 8 + newsize + 12) (setAllocV newsize)
        .ok (st, ptr)
    else do
      let rb ← reBack (st.mem.length + 1) st start_ptr0 totalSize0 newsize
      let start_ptr := rb.1
      let rf ←
        if ¬ rb.2.2 then do
          let maxA := heapHi st
          reFwd (st.mem.length + 1) st last_ptr0 rb.2.1 newsize maxA
        else pure (last_ptr0, rb.2.1, rb.2.2)
      let last_ptr := rf.1
      let totalSize := rf.2.1
      let possible := rf.2.2
      let iv ← loadW st itr_ptr0
      let tempSize := getSizeV iv
      if possible then do
        let st ← remBackLoop (st.mem.length + 1) st itr_ptr0 tempSize start_ptr
        let hv ← loadW st (ptr - 4)
        let itr2 := (ptr - 4) + getSizeV hv + 16
        let st ← remFwdLoop (st.mem.length + 1) st itr2 last_ptr
        let start_info_ptr := start_ptr + 8
        let newptr := start_info_ptr + 4
        let st ← copyWords st newptr oldptr copySize
        let st ←
          if totalSize ≠ newsize then do
            let sizediv := totalSize - newsize - 16
            let st ← storeW st start_info_ptr (setAllocV newsize)
            let st ← storeW st (start_info_ptr - 4 + newsize + 12) (setAllocV newsize)
            let div_ptr := start_info_ptr + 8 + newsize + 12
            let st ← set_info_free st (div_ptr - 4) sizediv
            add_to_list_usr st div_ptr sizediv
          else pure st
        if newptr = 0 then .ok (st, 0)
        else .ok (st, newptr)
      else do
        let r ← mm_malloc MFUEL st size
        let st := r.1
        let newptr := r.2
        if newptr = 0 then .ok (st, 0)
        else do
          let st ← copyWords st newptr oldptr copySize
          let st ← mm_free st oldptr
          .ok (st, newptr)

/-- check_if_in_list_usr(ptr, size): whether the free block with user
pointer ptr is reachable in the bucket of its size; a block of size 0
is reported as in the list without any search. -/
def check_if_in_list_usr (st : HeapSt) (ptr : Int) (size : Int) : Except Err Bool :=
  if size = 0 then .ok true
  else do
    let index : Int := (cntBit size.toNat : Int) - 4
    let head ← loadW st (4 * index)
    go (st.mem.length + 1) (ptr + 4) head
where
  go : Nat → Int → Int → Except Err Bool
    | 0, _, _ => .error .noFuel
    | f + 1, target, trav =>
      if trav = 0 then .ok false
      else if trav = target then .ok true
      else do
        let nv ← loadW st trav
        go f target nv

/-- The address walk of mm_check: step block-by-block by header sizes
from the start of the user zone; a free block after a free block or a
free block missing from its bucket clears the valid flag, while a
header/footer mismatch is only reported (the loads are still made),
exactly as in the source. -/
def checkWalk (st : HeapSt) : Nat → Int → Int → Bool → Except Err Bool
  | 0, _, _, _ => .error .noFuel
  | f + 1, trav, prev, valid =>
    if trav < heapHi st then do
      let v ← loadW st trav
      let pv ←
        if getAllocV v ≠ 0 then pure ((1 : Int), valid)
        else do
          let v1 := valid && (prev ≠ 0)
          let inl ← check_if_in_list_usr st (trav + 4) (getSizeV v)
          pure ((0 : Int), v1 && inl)
      let prevptr := trav
      let trav2 := trav + getSizeV v + 16
      let hv ← loadW st prevptr
      let fv ← loadW st (trav2 - 8)
      let _ := hv = fv
      checkWalk st f trav2 pv.1 pv.2
    else .ok valid

/-- One bucket chain of the list walk of mm_check: an entry whose block
header has the alloc bit set clears the valid flag. -/
def checkChain (st : HeapSt) : Nat → Int → Bool → Except Err Bool
  | 0, _, _ => .error .noFuel
  | f + 1, trav, valid =>
    if trav = 0 then .ok valid
    else do
      let hv ← loadW st (trav - 8)
      let valid := valid && (getAllocV hv = 0)
      let nv ← loadW st trav
      checkChain st f nv valid

/-- The list walk of mm_check over buckets i, i+1, ..., 21. -/
def checkLists (st : HeapSt) : Nat → Int → Bool → Except Err Bool
  | 0, _, valid => .ok valid
  | k + 1, i, valid => do
    let head ← loadW st (4 * i)
    let valid ← checkChain st (st.mem.length + 1) head valid
    checkLists st k (i + 1) valid

/-- mm_check(): the address walk followed by the list walk; true when no
checked violation was found. -/
def mm_check (st : HeapSt) : Except Err Bool := do
  let v1 ← checkWalk st (st.mem.length + 1) (MMSTART + 4) 1 true
  checkLists st LISTLENGTH 0 v1

deriving instance DecidableEq for Except

set_option maxRecDepth 100000

/-- Indices into the segregated list: the start index of the mm_malloc
bucket search and the index used by add_to_list_usr and
check_if_in_list_usr are all computed as the bit count of the size
minus 4. -/
def bucketIndex (s : Nat) : Int := (cntBit s : Int) - 4

/-- Modelled from the spec: the bucket-selection formula of section 4.3,
the position of the highest set bit of s (0-based, i.e. the bit count
minus 1) minus 3, clamped into the range 0..21. -/
def bucketIndexClampedSpec (s : Nat) : Int :=
  min 21 (max 0 (((cntBit s : Int) - 1) - 3))

/-- A freshly initialized heap with a capacity of 4096 words. -/
def initialSt : HeapSt := match mm_init 4096 with | .ok s => s | _ => ⟨[], 0, 0⟩

/-- Heap run for C1: allocate two blocks of payload 96, free the second,
then shrink the first with reallocate(a, 32). -/
def reallocShrinkRun : Except Err (HeapSt × Int) := do
  let st ← mm_init 4096
  let r1 ← mm_malloc MFUEL st 96
  let r2 ← mm_malloc MFUEL r1.1 96
  let st ← mm_free r2.1 r2.2
  mm_realloc st r1.2 32

/-- The state reached by the C1 run. -/
def reallocShrinkSt : HeapSt :=
  match reallocShrinkRun with | .ok r => r.1 | _ => ⟨[], 0, 0⟩

/-- Heap run for C2: three blocks of payload 96, free the first, then
grow the middle one with reallocate(b, 208), an exact backward fit
(96 + 96 + 16 = 208). -/
def reallocExactFitRun : Except Err (HeapSt × Int) := do
  let st ← mm_init 4096
  let r1 ← mm_malloc MFUEL st 96
  let r2 ← mm_malloc MFUEL r1.1 96
  let r3 ← mm_malloc MFUEL r2.1 96
  let st ← mm_free r3.1 r1.2
  mm_realloc st r2.2 208

/-- The state reached by the C2 run. -/
def reallocExactFitSt : HeapSt :=
  match reallocExactFitRun with | .ok r => r.1 | _ => ⟨[], 0, 0⟩

/-- Heap run for C3: on a region of capacity 50 words, allocate one block
of payload 96 (exhausting the region), then ask reallocate to grow it in
place at the heap tail; the mem_sbrk inside the grow-at-tail step fails. -/
def reallocTailOomRun : Except Err (HeapSt × Int) := do
  let st ← mm_init 50
  let r1 ← mm_malloc MFUEL st 96
  mm_realloc r1.1 r1.2 200

/-- Heap run for C4: four blocks of payload 96; free the third; shrink
the second to 32 (which splits off a free tail of payload 48 adjacent to
the free third block); then grow the second to 192, which consumes both
forward free neighbors. -/
def reallocForwardRemoveRun : Except Err (HeapSt × Int) := do
  let st ← mm_init 4096
  let r1 ← mm_malloc MFUEL st 96
  let r2 ← mm_malloc MFUEL r1.1 96
  let r3 ← mm_malloc MFUEL r2.1 96
  let r4 ← mm_malloc MFUEL r3.1 96
  let st ← mm_free r4.1 r3.2
  let r5 ← mm_realloc st r2.2 32
  mm_realloc r5.1 r5.2 192

/-- The state reached by the C4 run. -/
def reallocForwardRemoveSt : HeapSt :=
  match reallocForwardRemoveRun with | .ok r => r.1 | _ => ⟨[], 0, 0⟩

/-- Heap run for C6: allocate payload 96, free it, then allocate payload
80 from the freed block; the split leaves a remainder of exactly 16
bytes, i.e. a free block of payload size 0 at byte 184. -/
def sizeZeroSplitRun : Except Err (HeapSt × Int) := do
  let st ← mm_init 4096
  let r1 ← mm_malloc MFUEL st 96
  let st ← mm_free r1.1 r1.2
  mm_malloc MFUEL st 80

/-- The state reached by the C6 run. -/
def sizeZeroSplitSt : HeapSt :=
  match sizeZeroSplitRun with | .ok r => r.1 | _ => ⟨[], 0, 0⟩

/-- Heap run for C7: a single allocation of payload 8 from a fresh heap
(the small-block primer fires first, then the request is served by
splitting the primed free block). -/
def smallAllocRun : Except Err (HeapSt × Int) := do
  let st ← mm_init 4096
  mm_malloc MFUEL st 8

/-- Heap state for C9: a heap whose user zone holds one allocated block
at base byte 88 whose header tag is 17 (allocated, size 16) while its
footer tag at byte 116 is 25 (allocated, size 24) -- a header/footer
mismatch, and no other violation (all buckets are empty). -/
def mismatchSt : HeapSt :=
  ⟨List.replicate 22 0 ++ [0, 17, 0, 0, 0, 0, 0, 25], 30, 0⟩


/-- A membership chain of the free-list index is 8-aligned: starting
from a next-slot value v, every entry on the chain (within the given
fuel) is a byte address congruent to 4 modulo 8.  A null value ends the
chain; a value the guarded load would reject is not followed further. -/
def chainAligned : Nat → List Int → Int → Bool
  | 0, _, _ => false
  | f + 1, mem, v =>
    if v = 0 then true
    else
      decide (v % 8 = 4) &&
        (if 0 ≤ v ∧ v % 4 = 0 ∧ v < 4 * (mem.length : Int) then
          chainAligned f mem (mem.getD (v.toNat / 4) 0)
        else true)

/-- An 8-aligned heap: the break is a multiple of 8 bytes (an even
number of words), the index zone is present, and every bucket chain
consists of next-slot addresses congruent to 4 modulo 8. -/
def AlignedSt (st : HeapSt) : Prop :=
  st.mem.length % 2 = 0 ∧ 22 ≤ st.mem.length ∧
  ∀ i, i < 22 → chainAligned (st.mem.length + 1) st.mem (st.mem.getD i 0) = true

instance (st : HeapSt) : Decidable (AlignedSt st) := by
  unfold AlignedSt
  infer_instance

/-- A 30-word heap with empty buckets, used to witness the
add_to_list_usr bucket theorem at user pointer 96 and size 8. -/
def addWitnessSt : HeapSt := ⟨List.replicate 30 0, 30, 0⟩

/-- The heap obtained from addWitnessSt by inserting the free block with
user pointer 96 and payload size 8. -/
def addWitnessSt1 : HeapSt :=
  match add_to_list_usr addWitnessSt 96 8 with | .ok s => s | _ => ⟨[], 0, 0⟩

/-- The heap reached by allocating payload 96 from a fresh heap; used to
witness the allocation-alignment theorem (the request is large enough
that the small-block primer does not fire). -/
def alignWitnessSt : HeapSt :=
  match mm_malloc MFUEL initialSt 96 with | .ok r => r.1 | _ => ⟨[], 0, 0⟩

theorem bind_ok {α β : Type} {x : Except Err α} {f : α → Except Err β} {b : β}
    (h : x >>= f = .ok b) : ∃ a, x = .ok a ∧ f a = .ok b := by
  cases x with
  | ok a => exact ⟨a, rfl, h⟩
  | error e => simp [Bind.bind, Except.bind] at h

theorem loadW_ok_elim {st : HeapSt} {a x : Int} (h : loadW st a = .ok x) :
    0 ≤ a ∧ a % 4 = 0 ∧ a < brkB st ∧ x = st.mem.getD (a.toNat / 4) 0 := by
  unfold loadW at h
  split at h
  · next hc => exact ⟨hc.1, hc.2.1, hc.2.2, (Except.ok.injEq _ _).mp h.symm⟩
  · exact absurd h (by simp)

theorem loadW_ok_of (st : HeapSt) (a : Int) (h1 : 0 ≤ a) (h2 : a % 4 = 0)
    (h3 : a < brkB st) : loadW st a = .ok (st.mem.getD (a.toNat / 4) 0) := by
  unfold loadW
  rw [if_pos ⟨h1, h2, h3⟩]

theorem storeW_ok_elim {st : HeapSt} {a v : Int} {st1 : HeapSt}
    (h : storeW st a v = .ok st1) :
    0 ≤ a ∧ a % 4 = 0 ∧ a < brkB st ∧
      st1 = { st with mem := st.mem.set (a.toNat / 4) v } := by
  unfold storeW at h
  split at h
  · next hc => exact ⟨hc.1, hc.2.1, hc.2.2, ((Except.ok.injEq _ _).mp h).symm⟩
  · exact absurd h (by simp)

theorem storeW_mem_length {st : HeapSt} {a v : Int} {st1 : HeapSt}
    (h : storeW st a v = .ok st1) : st1.mem.length = st.mem.length := by
  obtain ⟨_, _, _, rfl⟩ := storeW_ok_elim h
  simp [List.length_set]

theorem loadW_storeW_same {st : HeapSt} {a v : Int} {st1 : HeapSt}
    (h : storeW st a v = .ok st1) : loadW st1 a = .ok v := by
  obtain ⟨h1, h2, h3, rfl⟩ := storeW_ok_elim h
  have hlen : a.toNat < 4 * st.mem.length := by
    unfold brkB at h3; omega
  have hidx : a.toNat / 4 < st.mem.length := by omega
  unfold loadW brkB
  simp only [List.length_set]
  rw [if_pos ⟨h1, h2, by unfold brkB at h3; exact h3⟩]
  rw [List.getD_eq_getD_get?, List.get?_set_eq_of_lt _ hidx]
  rfl

theorem loadW_storeW_other {st : HeapSt} {a v b : Int} {st1 : HeapSt}
    (h : storeW st a v = .ok st1) (hne : b ≠ a) : loadW st1 b = loadW st b := by
  obtain ⟨h1, h2, h3, rfl⟩ := storeW_ok_elim h
  unfold loadW brkB
  simp only [List.length_set]
  split
  · next hb =>
    have hab : a.toNat / 4 ≠ b.toNat / 4 := by
      have := hb.1
      have := hb.2.1
      omega
    rw [List.getD_eq_getD_get?, List.getD_eq_getD_get?, List.get?_set_ne _ _ hab]
  · rfl

theorem cntBitGo_le_iff : ∀ f n k : Nat, n ≤ f → (cntBitGo f n ≤ k ↔ n < 2 ^ k) := by
  intro f
  induction f with
  | zero =>
    intro n k hn
    have hn0 : n = 0 := by omega
    subst hn0
    simp [cntBitGo, Nat.two_pow_pos]
  | succ f ih =>
    intro n k hn
    by_cases h0 : n = 0
    · subst h0
      simp [cntBitGo, Nat.two_pow_pos]
    · rw [cntBitGo, if_neg h0]
      cases k with
      | zero =>
        constructor
        · omega
        · intro hk
          omega
      | succ k =>
        have hrec : n / 2 ≤ f := by omega
        rw [Nat.succ_le_succ_iff, ih (n / 2) k hrec, pow_succ]
        constructor
        · intro h
          omega
        · intro h
          omega

theorem cntBit_le_iff (n k : Nat) : cntBit n ≤ k ↔ n < 2 ^ k :=
  cntBitGo_le_iff n n k (Nat.le_refl n)


/-- C1.  The claim says no reachable state holds two address-adjacent
free blocks, in particular after the shrink-with-split-off case of
reallocate.  The code violates this: after allocating 96/96, freeing
the second block and shrinking the first to 32, the split-off tail
(free, payload 48, header at byte 140) is immediately followed by the
free block of payload 96 (header at byte 204), and the code's own
consistency checker reports the state invalid (returns 0). -/
theorem realloc_shrink_breaks_coalescing_invariant :
    (reallocShrinkRun.map fun r => r.2) = .ok 96 ∧
    (loadW reallocShrinkSt 140).map getAllocV = .ok 0 ∧
    (loadW reallocShrinkSt 140).map (fun v => 140 + getSizeV v + 16) = .ok 204 ∧
    (loadW reallocShrinkSt 204).map getAllocV = .ok 0 ∧
    mm_check reallocShrinkSt = .ok false := by decide

/-- C2.  The claim says a successful symmetric coalesce in reallocate
always finalizes the block with allocated tags carrying payload newsize,
including the exact-fit case total == new.  In the exact-fit case the
code skips the tag writes (they sit under if(totalSize != newsize)): in
the C2 run the coalesce succeeds with total = newsize = 208 and the
returned block (user pointer 96, header at byte 92, footer of the
208-byte extent at byte 308) keeps the stale free tag 96 of the consumed
predecessor and the stale allocated tag 97 of the old block, neither of
which is SET_ALLOC_VAL(208) = 209. -/
theorem realloc_exact_fit_skips_allocated_tags :
    (reallocExactFitRun.map fun r => r.2) = .ok 96 ∧
    (align 208 : Int) = 208 ∧ setAllocV 208 = 209 ∧
    loadW reallocExactFitSt 92 = .ok 96 ∧
    loadW reallocExactFitSt 308 = .ok 97 := by decide

/-- C3.  The claim says that when extend fails during reallocate's
grow-at-tail step, reallocate returns a null pointer and the heap is
unchanged.  The code instead prints and calls exit(1): on a region of
capacity 50 words, growing the last (and only) block from payload 96 to
200 makes mem_sbrk fail and the call exits with status 1 rather than
returning. -/
theorem realloc_tail_grow_oom_exits :
    reallocTailOomRun = .error (.exited 1) := by decide

/-- C4.  The claim says the forward removal loop of reallocate's
coalesce path removes every consumed forward neighbor from its bucket.
Because the loop advances with FORWARDINT(last_ptr, tempSize) from the
walk's endpoint, it runs only once: in the C4 run the coalesce consumes
two forward neighbors (payloads 48 and 96), removes only the first, and
returns in place (user pointer 208) with the new block allocated with
payload 192 (header 193 at byte 204, extent bytes 200..407); yet the
head of bucket 3 (byte 12) still holds 324, the next-slot of the
consumed second neighbor, which now lies inside the allocated block,
and the consumed neighbor is still reported reachable in its bucket. -/
theorem realloc_forward_remove_leaves_stale_entry :
    (reallocForwardRemoveRun.map fun r => r.2) = .ok 208 ∧
    loadW reallocForwardRemoveSt 12 = .ok 324 ∧
    loadW reallocForwardRemoveSt 204 = .ok 193 ∧
    ((200 : Int) ≤ 324 ∧ (324 : Int) < 200 + 192 + 16) ∧
    check_if_in_list_usr reallocForwardRemoveSt 320 96 = .ok true := by decide

/-- C5.  The claim says reallocate(null, n) behaves exactly as
allocate(n) without reading any metadata through the null pointer.  The
code reads the header word at NULL - 4 (for copySize and totalSize)
before the ptr == NULL test, so under guarded indexing the call yields
no value, while allocate(24) on the same fresh heap succeeds and
returns user pointer 96. -/
theorem realloc_null_reads_through_null_pointer :
    mm_realloc initialSt 0 24 = .error .oob ∧
    (mm_malloc MFUEL initialSt 24).map (fun r => r.2) = .ok 96 := by decide

/-- C10.  For request size 0 the rounded payload is align 0 = 0, the bit
count of 0 is 0, so the bucket search starts at index -4 and its first
head lookup reads seg_list[-4], outside the 22-entry index zone: under
the guarded embedding the read (at byte -16) yields no value and the
whole allocation yields no value, after the small-block primer has run. -/
theorem malloc_zero_starts_search_out_of_bounds :
    align 0 = 0 ∧ bucketIndex (align 0) = -4 ∧
    mm_malloc MFUEL initialSt 0 = .error .oob := by decide

/-- C6 counterexample.  The claim says every free block in a reachable
state, including the payload-0 blocks left by a split with remainder
exactly 16, sits in exactly one bucket.  In the C6 run the split of the
freed 96-byte block by the 80-byte request leaves a free block of
payload 0 (header 0 at byte 188, footer 0 at byte 196, alloc bit 0),
while all 22 bucket heads are null: the block is in no bucket. -/
theorem size_zero_free_block_in_no_bucket :
    (sizeZeroSplitRun.map fun r => r.2) = .ok 96 ∧
    loadW sizeZeroSplitSt 188 = .ok 0 ∧
    loadW sizeZeroSplitSt 196 = .ok 0 ∧ getAllocV 0 = 0 ∧
    ((List.range 22).map fun i => loadW sizeZeroSplitSt (4 * (i : Int))) =
      List.replicate 22 (.ok 0) := by decide

/-- C7 counterexample.  The claim says the user pointer returned by a
successful allocate is congruent to 4 modulo 8.  The first allocation
from a fresh heap returns user pointer 96 (the heap base is 8-byte
aligned, so offsets are congruences): 96 mod 8 is 0, not 4. -/
theorem alloc_user_pointer_not_four_mod_eight :
    (smallAllocRun.map fun r => r.2) = .ok 96 ∧
    (smallAllocRun.map fun r => r.2 % 8) = .ok 0 ∧
    (smallAllocRun.map fun r => r.2 % 8) ≠ .ok 4 := by decide

/-- C9.  The claim says the checker returns false for every heap state
in which some block's header differs from its footer.  On the state
whose single block has header 17 (allocated, size 16) at byte 92 and
footer 25 (allocated, size 24) at byte 116 = 88 + 16 + 12, and which
violates nothing else, mm_check only prints the mismatch and returns
true. -/
theorem check_ignores_header_footer_mismatch :
    loadW mismatchSt 92 = .ok 17 ∧
    loadW mismatchSt 116 = .ok 25 ∧ (17 : Int) ≠ 25 ∧
    getSizeV 17 = 16 ∧
    mm_check mismatchSt = .ok true := by decide
/-- A chain-search step of mm_malloc that reports no fit leaves the heap
unchanged and carries the null candidate. -/
theorem mallocChain_false :
    ∀ (f : Nat) (st : HeapSt) (cs e : Int) (r : HeapSt × Int × Bool),
      mallocChain f st cs e = .ok r → r.2.2 = false → r.1 = st ∧ r.2.1 = 0 := by
  intro f
  induction f with
  | zero =>
    intro st cs e r h _
    exact absurd h (by simp [mallocChain])
  | succ f ih =>
    intro st cs e r h hf
    rw [mallocChain] at h
    by_cases he : e = 0
    · rw [if_pos he] at h
      injection h with h2
      exact ⟨by rw [← h2], by rw [← h2]⟩
    · rw [if_neg he] at h
      obtain ⟨hv, hhv, h⟩ := bind_ok h
      dsimp only at h
      split at h
      · obtain ⟨st2, hst2, h⟩ := bind_ok h
        injection h with h2
        rw [← h2] at hf
        simp at hf
      · split at h
        · obtain ⟨st2, hst2, h⟩ := bind_ok h
          obtain ⟨st3, hst3, h⟩ := bind_ok h
          obtain ⟨st4, hst4, h⟩ := bind_ok h
          injection h with h2
          rw [← h2] at hf
          simp at hf
        · obtain ⟨np, hnp, h⟩ := bind_ok h
          exact ih st cs np r h hf

/-- A successful fit found by the chain search of mm_malloc on an
8-aligned chain is a block base that is a multiple of 8 bytes. -/
theorem mallocChain_true_aligned :
    ∀ (f : Nat) (st : HeapSt) (cs e : Int) (r : HeapSt × Int × Bool),
      chainAligned f st.mem e = true →
      mallocChain f st cs e = .ok r → r.2.2 = true → r.2.1 % 8 = 0 := by
  intro f
  induction f with
  | zero =>
    intro st cs e r _ h _
    exact absurd h (by simp [mallocChain])
  | succ f ih =>
    intro st cs e r hca h hf
    rw [mallocChain] at h
    rw [chainAligned] at hca
    by_cases he : e = 0
    · rw [if_pos he] at h
      injection h with h2
      rw [← h2] at hf
      simp at hf
    · rw [if_neg he] at h
      rw [if_neg he, Bool.and_eq_true] at hca
      have he8 : e % 8 = 4 := of_decide_eq_true hca.1
      obtain ⟨hv, hhv, h⟩ := bind_ok h
      dsimp only at h
      split at h
      · obtain ⟨st2, hst2, h⟩ := bind_ok h
        injection h with h2
        rw [← h2]
        simp
        omega
      · split at h
        · obtain ⟨st2, hst2, h⟩ := bind_ok h
          obtain ⟨st3, hst3, h⟩ := bind_ok h
          obtain ⟨st4, hst4, h⟩ := bind_ok h
          injection h with h2
          rw [← h2]
          simp
          omega
        · obtain ⟨np, hnp, h⟩ := bind_ok h
          obtain ⟨g1, g2, g3, hval⟩ := loadW_ok_elim hnp
          rw [if_pos ⟨g1, g2, by unfold brkB at g3; exact g3⟩] at hca
          have hnp2 : mallocChain f st cs (st.mem.getD (e.toNat / 4) 0) = .ok r := by
            rw [← hval]; exact h
          exact ih st cs _ r hca.2 hnp2 hf

/-- A bucket search of mm_malloc that finds no fit leaves the heap
unchanged. -/
theorem mallocOuter_false :
    ∀ (k : Nat) (st : HeapSt) (cs i : Int) (r : HeapSt × Int × Bool),
      mallocOuter k st cs i = .ok r → r.2.2 = false → r.1 = st := by
  intro k
  induction k with
  | zero =>
    intro st cs i r h _
    rw [mallocOuter] at h
    injection h with h2
    rw [← h2]
  | succ k ih =>
    intro st cs i r h hf
    rw [mallocOuter] at h
    obtain ⟨head, hhead, h⟩ := bind_ok h
    obtain ⟨r1, hr1, h⟩ := bind_ok h
    by_cases hf1 : r1.2.2
    · rw [if_pos hf1] at h
      injection h with h2
      rw [← h2] at hf
      rw [hf] at hf1
      simp at hf1
    · rw [if_neg hf1] at h
      have he1 := mallocChain_false _ _ _ _ _ hr1 (by simpa using hf1)
      rw [he1.1] at h
      exact ih st cs (i + 1) r h hf

/-- A successful fit found by the bucket search of mm_malloc over
8-aligned buckets is a block base that is a multiple of 8 bytes. -/
theorem mallocOuter_true_aligned :
    ∀ (k : Nat) (st : HeapSt) (cs i : Int) (r : HeapSt × Int × Bool),
      (∀ m : Nat, m < 22 →
        chainAligned (st.mem.length + 1) st.mem (st.mem.getD m 0) = true) →
      (k : Int) + i = 22 →
      mallocOuter k st cs i = .ok r → r.2.2 = true → r.2.1 % 8 = 0 := by
  intro k
  induction k with
  | zero =>
    intro st cs i r _ _ h hf
    rw [mallocOuter] at h
    injection h with h2
    rw [← h2] at hf
    simp at hf
  | succ k ih =>
    intro st cs i r hch hinv h hf
    rw [mallocOuter] at h
    obtain ⟨head, hhead, h⟩ := bind_ok h
    obtain ⟨r1, hr1, h⟩ := bind_ok h
    obtain ⟨hi0, hi4, hilt, hheadv⟩ := loadW_ok_elim hhead
    have hito : (4 * i).toNat / 4 = i.toNat := by omega
    have hilt22 : i.toNat < 22 := by omega
    have hcha : chainAligned (st.mem.length + 1) st.mem (st.mem.getD i.toNat 0) = true :=
      hch _ hilt22
    rw [hito] at hheadv
    by_cases hf1 : r1.2.2
    · rw [if_pos hf1] at h
      injection h with h2
      rw [← h2] at hf ⊢
      exact mallocChain_true_aligned _ _ _ _ _ (by rw [hheadv]; exact hcha) hr1 hf1
    · rw [if_neg hf1] at h
      have he1 := mallocChain_false _ _ _ _ _ hr1 (by simpa using hf1)
      rw [he1.1] at h
      exact ih st cs (i + 1) r hch (by omega) h hf

/-- The finalizing tag writes of mm_malloc return the block base plus 8
bytes. -/
theorem malloc_tail_ret {stT : HeapSt} {cs p : Int} {st1 : HeapSt} {u : Int}
    (h : (do
        let s1 ← storeW stT (p + 4) (setAllocV cs)
        let s2 ← storeW s1 (p + cs + 12) (setAllocV cs)
        (.ok (s2, p + 8) : Except Err (HeapSt × Int))) = .ok (st1, u)) :
    u = p + 8 := by
  obtain ⟨s1, hs1, h⟩ := bind_ok h
  obtain ⟨s2, hs2, h⟩ := bind_ok h
  injection h with h2
  have := congrArg Prod.snd h2
  simpa using this.symm

/-- The search-and-finalize tail of mm_malloc, on a heap with an
8-aligned break and 8-aligned bucket chains, returns a nonnull user
pointer that is a multiple of 8 bytes. -/
theorem malloc_search_tail_aligned (stP : HeapSt) (cs ns i0 : Int)
    (st1 : HeapSt) (u : Int)
    (hEven : stP.mem.length % 2 = 0)
    (hCh : ∀ m, m < 22 →
      chainAligned (stP.mem.length + 1) stP.mem (stP.mem.getD m 0) = true)
    (hm : (do
        let r ← mallocOuter (22 - (i0 - 4)).toNat stP cs (i0 - 4)
        if (if r.2.2 = true then (r.1, r.2.1) else sbrk r.1 ns).2 = -1 then
          (.ok ((if r.2.2 = true then (r.1, r.2.1) else sbrk r.1 ns).1, 0) :
            Except Err (HeapSt × Int))
        else do
          let s1 ← storeW (if r.2.2 = true then (r.1, r.2.1) else sbrk r.1 ns).1
              ((if r.2.2 = true then (r.1, r.2.1) else sbrk r.1 ns).2 + 4) (setAllocV cs)
          let s2 ← storeW s1
              ((if r.2.2 = true then (r.1, r.2.1) else sbrk r.1 ns).2 + cs + 12)
              (setAllocV cs)
          .ok (s2, (if r.2.2 = true then (r.1, r.2.1) else sbrk r.1 ns).2 + 8)) =
      .ok (st1, u))
    (hu : u ≠ 0) : u % 8 = 0 := by
  obtain ⟨r, hr, hm2⟩ := bind_ok hm
  clear hm
  obtain ⟨st2, p, found⟩ := r
  cases found with
  | true =>
    have hpf : (if (true : Bool) = true then (st2, p) else sbrk st2 ns) = (st2, p) :=
      if_pos rfl
    dsimp only at hm2
    rw [hpf] at hm2
    dsimp only at hm2
    by_cases hp : p = -1
    · rw [if_pos hp] at hm2
      injection hm2 with h2
      exact absurd (congrArg Prod.snd h2).symm hu
    · rw [if_neg hp] at hm2
      have hret := malloc_tail_ret hm2
      by_cases hi : i0 - 4 ≤ 22
      · have hp8 := mallocOuter_true_aligned _ stP cs (i0 - 4) _ hCh (by omega) hr rfl
        dsimp only at hp8
        omega
      · have hz : (22 - (i0 - 4)).toNat = 0 := by omega
        rw [hz, mallocOuter] at hr
        injection hr with h2
        have h3 := congrArg (fun x => x.2.2) h2
        simp at h3
  | false =>
    have hpf : (if (false : Bool) = true then (st2, p) else sbrk st2 ns) = sbrk st2 ns :=
      if_neg (by simp)
    rw [hpf] at hm2
    have hst2 : st2 = stP := mallocOuter_false _ _ _ _ _ hr rfl
    subst hst2
    by_cases hc1 : ns < 0 ∨ ns % 4 ≠ 0
    · have hs : sbrk st2 ns = (st2, -1) := by
        unfold sbrk
        rw [if_pos hc1]
      rw [hs] at hm2
      dsimp only at hm2
      rw [if_pos rfl] at hm2
      injection hm2 with h2
      exact absurd (congrArg Prod.snd h2).symm hu
    · by_cases hc2 : 4 * (st2.mem.length : Int) + ns > 4 * (st2.maxWords : Int)
      · have hs : sbrk st2 ns = (st2, -1) := by
          unfold sbrk
          rw [if_neg hc1, if_pos hc2]
        rw [hs] at hm2
        dsimp only at hm2
        rw [if_pos rfl] at hm2
        injection hm2 with h2
        exact absurd (congrArg Prod.snd h2).symm hu
      · have hs : sbrk st2 ns =
            ({ st2 with mem := st2.mem ++ List.replicate (ns.toNat / 4) 0 },
              4 * (st2.mem.length : Int)) := by
          unfold sbrk
          rw [if_neg hc1, if_neg hc2]
        rw [hs] at hm2
        dsimp only at hm2
        rw [if_neg (by omega)] at hm2
        have hret := malloc_tail_ret hm2
        omega

/-- C7 amended.  For every allocation step that does not trigger the
small-block primer (the rounded footprint exceeds 80 bytes, or m_count
is outside the trigger values 0, 4 and 6), from any heap state whose
break is a multiple of 8 bytes and whose bucket chains hold only
next-slot addresses congruent to 4 modulo 8, a successful mm_malloc
returns a user pointer congruent to 0 (not 4) modulo 8: the pointer is
block base + 8, and block bases are 8-aligned. -/
theorem mm_malloc_user_pointer_eight_aligned
    (fuel : Nat) (st : HeapSt) (n : Nat) (st1 : HeapSt) (u : Int)
    (hA : AlignedSt st)
    (hP : 80 < align (n + 16) ∨ (st.mCount ≠ 0 ∧ st.mCount ≠ 4 ∧ st.mCount ≠ 6))
    (hm : mm_malloc fuel st n = .ok (st1, u)) (hu : u ≠ 0) :
    u % 8 = 0 := by
  obtain ⟨hEven, hLen, hCh⟩ := hA
  cases fuel with
  | zero => exact absurd hm (by simp [mm_malloc])
  | succ fuel =>
    rw [mm_malloc] at hm
    dsimp only at hm
    split at hm
    · split at hm
      · exfalso
        next hc32 hcnt =>
          rcases hP with hbig | ⟨hc0, hc4, _⟩
          · omega
          · rcases hcnt with h | h
            · exact hc0 h
            · exact hc4 h
      · rw [pure_bind] at hm
        exact malloc_search_tail_aligned { st with mCount := st.mCount + 1 } _ _ _ _ _
          hEven hCh hm hu
    · split at hm
      · split at hm
        · exfalso
          next hc32 hc80 hcnt =>
            rcases hP with hbig | ⟨hc0, _, hc6⟩
            · omega
            · rcases hcnt with h | h
              · exact hc0 h
              · exact hc6 h
        · rw [pure_bind] at hm
          exact malloc_search_tail_aligned { st with mCount := st.mCount + 1 } _ _ _ _ _
            hEven hCh hm hu
      · rw [pure_bind] at hm
        exact malloc_search_tail_aligned st _ _ _ _ _ hEven hCh hm hu

/-- C7 amended, witness: from the fresh heap, mm_malloc with request 96
(whose footprint 112 exceeds the primer tiers) succeeds with user
pointer 96, and 96 mod 8 = 0. -/
theorem mm_malloc_user_pointer_eight_aligned_witness :
    mm_malloc MFUEL initialSt 96 = .ok (alignWitnessSt, 96) ∧ (96 : Int) % 8 = 0 :=
  ⟨by decide,
   mm_malloc_user_pointer_eight_aligned MFUEL initialSt 96 alignWitnessSt 96
     (by decide) (Or.inl (by decide)) (by decide) (by decide)⟩

/-- C6 amended.  add_to_list_usr links a free block of payload size 0
into no bucket (the insert is the identity), and links a free block of
positive payload size into exactly one bucket: afterwards the head of
the bucket selected by the size holds the address of the block's
next-slot, and every other bucket head is unchanged.  The side
conditions say the computed index is one of the 22 head cells, the user
pointer lies in the user zone, and the old head is null or a next-slot
in the user zone. -/
theorem add_to_list_usr_exactly_one_bucket :
    (∀ st u, add_to_list_usr st u 0 = .ok st) ∧
    (∀ (st : HeapSt) (u s v : Int) (st1 : HeapSt),
      s ≠ 0 →
      0 ≤ bucketIndex s.toNat → bucketIndex s.toNat ≤ 21 →
      MMSTART ≤ u →
      loadW st (4 * bucketIndex s.toNat) = .ok v →
      (v = 0 ∨ MMSTART + 4 ≤ v) →
      add_to_list_usr st u s = .ok st1 →
      loadW st1 (4 * bucketIndex s.toNat) = .ok (u + 4) ∧
      ∀ j : Int, 0 ≤ j → j ≤ 21 → j ≠ bucketIndex s.toNat →
        loadW st1 (4 * j) = loadW st (4 * j)) := by
  constructor
  · intro st u
    unfold add_to_list_usr
    rw [if_pos rfl]
  · intro st u s v st1 hs hi0 hi21 hu hv hvr hadd
    unfold add_to_list_usr at hadd
    rw [if_neg hs] at hadd
    simp only [bucketIndex] at hi0 hi21 hv ⊢
    simp only [MMSTART] at hu hvr
    obtain ⟨h0, hh0, hadd⟩ := bind_ok hadd
    rw [hv] at hh0
    injection hh0 with hh0e
    subst hh0e
    obtain ⟨stA, hstA, hadd⟩ := bind_ok hadd
    obtain ⟨stB, hstB, hadd⟩ := bind_ok hadd
    obtain ⟨vB, hvB, hadd⟩ := bind_ok hadd
    have e1 : loadW stB (u + 4) = loadW stA (u + 4) :=
      loadW_storeW_other hstB (by omega)
    have e2 : loadW stA (u + 4) = .ok v := loadW_storeW_same hstA
    rw [e1, e2] at hvB
    injection hvB with hvBe
    subst hvBe
    rcases hvr with hv0 | hvbig
    · rw [hv0, if_neg (fun hq => hq rfl)] at hadd
      rw [pure_bind] at hadd
      refine ⟨loadW_storeW_same hadd, ?_⟩
      intro j hj0 hj21 hjne
      have l1 : loadW st1 (4 * j) = loadW stB (4 * j) :=
        loadW_storeW_other hadd (by omega)
      have l2 : loadW stB (4 * j) = loadW stA (4 * j) :=
        loadW_storeW_other hstB (by omega)
      have l3 : loadW stA (4 * j) = loadW st (4 * j) :=
        loadW_storeW_other hstA (by omega)
      rw [l1, l2, l3]
    · rw [if_pos (by omega : v ≠ 0)] at hadd
      obtain ⟨stC, hstC, hadd⟩ := bind_ok hadd
      refine ⟨loadW_storeW_same hadd, ?_⟩
      intro j hj0 hj21 hjne
      have l1 : loadW st1 (4 * j) = loadW stC (4 * j) :=
        loadW_storeW_other hadd (by omega)
      have l2 : loadW stC (4 * j) = loadW stB (4 * j) :=
        loadW_storeW_other hstC (by omega)
      have l3 : loadW stB (4 * j) = loadW stA (4 * j) :=
        loadW_storeW_other hstB (by omega)
      have l4 : loadW stA (4 * j) = loadW st (4 * j) :=
        loadW_storeW_other hstA (by omega)
      rw [l1, l2, l3, l4]

/-- C6 amended, witness: inserting the free block with user pointer 96
and payload 8 into the 30-word heap with empty buckets sets the head of
bucket 0 to 100 and leaves bucket 12 (as one concrete other bucket)
unchanged. -/
theorem add_to_list_usr_exactly_one_bucket_witness :
    loadW addWitnessSt1 (4 * bucketIndex (8 : Int).toNat) = .ok 100 ∧
    loadW addWitnessSt1 (4 * 12) = loadW addWitnessSt (4 * 12) :=
  ⟨(add_to_list_usr_exactly_one_bucket.2 addWitnessSt 96 8 0 addWitnessSt1
      (by decide) (by decide) (by decide) (by decide) (by decide)
      (Or.inl rfl) (by decide)).1,
   (add_to_list_usr_exactly_one_bucket.2 addWitnessSt 96 8 0 addWitnessSt1
      (by decide) (by decide) (by decide) (by decide) (by decide)
      (Or.inl rfl) (by decide)).2 12 (by decide) (by decide) (by decide)⟩

/-- C8 amended.  The bucket index computed by the insertion and search
code is the bit count of the size minus 4 with no clamping; for every
size s with 8 <= s < 2^25 (which covers every multiple-of-8 payload a
bounded heap can hold) this agrees with the spec's clamped formula and
lies inside 0..21.  Outside that range the code does not clamp (see the
counterexample at 2^25). -/
theorem bucket_index_in_range_matches_spec (s : Nat) (h8 : 8 ≤ s)
    (hlt : s < 2 ^ 25) :
    bucketIndex s = bucketIndexClampedSpec s ∧
    0 ≤ bucketIndex s ∧ bucketIndex s ≤ 21 := by
  have hub : cntBit s ≤ 25 := (cntBit_le_iff s 25).mpr hlt
  have hlb : ¬ cntBit s ≤ 3 := by
    rw [cntBit_le_iff]
    have h23 : (2 : Nat) ^ 3 = 8 := by norm_num
    omega
  unfold bucketIndex bucketIndexClampedSpec
  omega

/-- C8 amended, witness: at size 96 the code's index 3 agrees with the
clamped spec formula and is in range. -/
theorem bucket_index_in_range_matches_spec_witness :
    bucketIndex 96 = bucketIndexClampedSpec 96 ∧
    0 ≤ bucketIndex 96 ∧ bucketIndex 96 ≤ 21 :=
  bucket_index_in_range_matches_spec 96 (by decide) (by decide)

/-- C8 counterexample.  At size 2^25 = 33554432 the code computes bucket
index 22, while the clamped spec formula gives 21: the computed index is
not the clamped value and lies outside 0..21, so an insertion with this
size writes outside the 22-entry index zone. -/
theorem bucket_index_not_clamped_at_2pow25 :
    bucketIndex 33554432 = 22 ∧ bucketIndexClampedSpec 33554432 = 21 ∧
    bucketIndex 33554432 ≠ bucketIndexClampedSpec 33554432 ∧
    ¬ bucketIndex 33554432 ≤ 21 := by decide
